import Mathlib

/-!
Verification development for the Hidey redaction engine
(`src/content/blur-engine.ts`, `src/background/background.ts`).

Strings from the source are embedded as `List Char` where the code walks
over characters (URL patterns), and as `String` where the code only
constructs and compares values (style properties, selectors).
-/

namespace Hidey

/-! ## URL pattern matching

`BlurEngine.urlMatchesPattern` (blur-engine.ts) builds a regex from the
pattern by escaping every `.` to `\.`, turning every `*` into `.*`, and
escaping every `?` to `\?`, then anchors it with `^...$` and tests the URL.
In the resulting regex, an escaped `.` and an escaped `?` match only the
literal characters `.` and `?`, `.*` matches any sequence of characters, and
every other regex-neutral character matches itself.  We embed the compiled
regex as a token list (the embedding covers patterns whose characters other
than `.`, `*`, `?` carry no regex metacharacter meaning, which is the case
for every URL pattern this program handles). -/

/-- A token of the compiled pattern: a literal character, `.*` (from `*`),
or the `(www\.)?` group the background's matcher inserts. -/
inductive GTok where
  | lit (c : Char)
  | star
  | optWww
deriving DecidableEq

/-- Compile a wildcard pattern: `*` becomes `.*` (any sequence of characters);
`.` and `?` are escaped by the source and, like every other regex-neutral
character, match only themselves. -/
def compileGlob : List Char → List GTok
  | [] => []
  | c :: cs => (if c = '*' then GTok.star else GTok.lit c) :: compileGlob cs

/-- Anchored matching of a compiled pattern against a string, with JS regex
semantics for the produced tokens: `lit c` consumes exactly `c`, `star`
consumes any (possibly empty) sequence, `optWww` consumes `""` or `"www."`. -/
def globMatch : List GTok → List Char → Bool
  | [], s => s.isEmpty
  | .lit _ :: _, [] => false
  | .lit c :: ts, x :: xs => x == c && globMatch ts xs
  | .optWww :: ts, s =>
      globMatch ts s ||
        (match s with
         | 'w' :: 'w' :: 'w' :: '.' :: s4 => globMatch ts s4
         | _ => false)
  | .star :: ts, s => s.tails.any (fun t => globMatch ts t)

/-- `BlurEngine.urlMatchesPattern(url, pattern)` (blur-engine.ts, lines
115–127): compile the pattern and test the URL against the anchored regex. -/
def urlMatchesPattern (url pattern : List Char) : Bool :=
  globMatch (compileGlob pattern) url

/-- Leading-`www.` strip used by the background (`hostname.startsWith('www.')
? hostname.substring(4) : hostname`). -/
def stripWww (h : List Char) : List Char :=
  match h with
  | 'w' :: 'w' :: 'w' :: '.' :: rest => rest
  | _ => h

/-- Split a string at the first `"://"`, returning the part before and after.
`none` models `new URL(...)` throwing on a string with no scheme separator. -/
def splitScheme : List Char → Option (List Char × List Char)
  | ':' :: '/' :: '/' :: rest => some ([], rest)
  | c :: cs => (splitScheme cs).map (fun p => (c :: p.1, p.2))
  | [] => none

/-- Characters terminating the hostname for `new URL(...).hostname`. -/
def hostStop (c : Char) : Bool :=
  c = '/' || c = ':' || c = '?' || c = '#'

/-- Decompose `scheme://host rest` as the URL parser sees it. -/
def urlHostSplit (s : List Char) : Option (List Char × List Char × List Char) :=
  (splitScheme s).map
    (fun p => (p.1, p.2.takeWhile (fun c => !hostStop c), p.2.dropWhile (fun c => !hostStop c)))

/-- `normalizeHostnameForMatching` (background.ts, lines 503–514): parse the
string as a URL, strip a leading `www.` from its hostname, and substitute the
stripped hostname back (the first occurrence of the hostname in a URL string
is its authority).  A string that does not parse is returned unchanged. -/
def normalizeHostnameForMatching (s : List Char) : List Char :=
  match urlHostSplit s with
  | some (scheme, host, rest) => scheme ++ ':' :: '/' :: '/' :: (stripWww host ++ rest)
  | none => s

/-- Whether the part before `"://"` ends with `http` or `https`, so that the
background's `(https?:\/\/)([^\/\*]+)` replacement finds a protocol there. -/
def schemeOk (s : List Char) : Bool :=
  List.isSuffixOf "http".toList s || List.isSuffixOf "https".toList s

/-- Compile a pattern the way `urlMatchesPattern` in background.ts (lines
516–544) does: after the glob escaping, the regex replacement
`(https?:\/\/)([^\/\*]+)` → `$1(www\.)?$2` inserts an optional `www.` group
right after the protocol, in front of the hostname part (the run of
characters other than `/` and `*`).  The source applies the replacement to
every protocol occurrence; the program's patterns contain exactly one, at
the front, which is what this embedding handles. -/
def compileBgToks (p : List Char) : List GTok :=
  match splitScheme p with
  | some (scheme, rest) =>
      if schemeOk scheme then
        let host := rest.takeWhile (fun c => !(c = '/' || c = '*'))
        let tail := rest.dropWhile (fun c => !(c = '/' || c = '*'))
        if host.isEmpty then compileGlob p
        else
          compileGlob scheme ++ [GTok.lit ':', GTok.lit '/', GTok.lit '/'] ++
            GTok.optWww :: (compileGlob host ++ compileGlob tail)
      else compileGlob p
  | none => compileGlob p

/-- `urlMatchesPattern(url, pattern)` (background.ts, lines 516–544):
normalize both the URL and the pattern, compile with the optional `www.`
group, and test both the normalized and the original URL. -/
def bgUrlMatchesPattern (url pattern : List Char) : Bool :=
  let nUrl := normalizeHostnameForMatching url
  let nPat := normalizeHostnameForMatching pattern
  let toks := compileBgToks nPat
  globMatch toks nUrl || globMatch toks url

/-! ## Element redaction state machine

The per-element state the engine reads and writes: the marker attribute
`data-hidey-blur`, the `hidey-blurred` class, the snapshot attribute
`data-hidey-original-filter`, the `data-hidey-hover-unblur` attribute, the
inline `filter` and `transition` style properties (`none` = property not
set), the expando flags `__hideyListenersAdded` and `__hideyStyleObserver`,
and, as environment, the element's stylesheet-computed `filter`
(`baseFilter`, what `getComputedStyle` reports when no inline filter is set)
and the set of selector strings the element matches (`keys`, the model of
CSS selector matching).  `id` models DOM node identity. -/

structure Elem where
  id : Nat
  keys : List String
  baseFilter : String
  hideyBlur : Bool
  blurredClass : Bool
  originalFilterAttr : Option String
  hoverUnblurAttr : Bool
  styleFilter : Option String
  styleTransition : Option String
  listenersAdded : Bool
  styleObserver : Bool
deriving DecidableEq

/-- `element.style.filter || window.getComputedStyle(element).filter`: the
inline value when one is set, else the stylesheet-computed value. -/
def computedFilter (e : Elem) : String :=
  e.styleFilter.getD e.baseFilter

/-- `currentFilter.includes('blur')`. -/
def includesBlur (f : String) : Bool :=
  f.toList.tails.any (fun t => List.isPrefixOf "blur".toList t)

/-- The filter string `blur(${n}px)` the engine writes. -/
def blurStr (n : Nat) : String :=
  "blur(" ++ toString n ++ "px)"

/-- The engine fields the per-element operations read. -/
structure EngineCfg where
  blurIntensity : Nat
  hoverToUnblur : Bool
deriving DecidableEq

/-- `BlurEngine.updateHoverToUnblur` (blur-engine.ts, lines 278–312): detach
any previously attached hover listeners, then, if hover-to-unblur is on, set
the `data-hidey-hover-unblur` attribute and attach fresh listeners; else
remove the attribute. -/
def updateHoverToUnblur (cfg : EngineCfg) (e : Elem) : Elem :=
  let e1 := if e.listenersAdded then { e with listenersAdded := false } else e
  if cfg.hoverToUnblur then
    { e1 with hoverUnblurAttr := true, listenersAdded := true }
  else
    { e1 with hoverUnblurAttr := false }

/-- `BlurEngine.applyBlurToElement` (blur-engine.ts, lines 244–276).  On
first application: set the marker attribute and class, snapshot the
pre-existing filter into `data-hidey-original-filter` when one exists, and
connect the style observer (`watchElementForBlurRemoval`, idempotent).
When already marked: `ensureBlurApplied` re-asserts the blur if the computed
filter no longer contains `blur`.  In both cases the inline filter is then
set to `blur(intensity px)` with the transition override, and
`updateHoverToUnblur` runs. -/
def applyBlurToElement (cfg : EngineCfg) (e : Elem) : Elem :=
  let e1 :=
    if !e.hideyBlur then
      let orig := computedFilter e
      let ea := { e with hideyBlur := true, blurredClass := true }
      let eb :=
        if orig ≠ "" ∧ orig ≠ "none" ∧ e.originalFilterAttr = none then
          { ea with originalFilterAttr := some orig }
        else ea
      { eb with styleObserver := true }
    else
      if !includesBlur (computedFilter e) then
        { e with styleFilter := some (blurStr cfg.blurIntensity) }
      else e
  let e2 := { e1 with
    styleFilter := some (blurStr cfg.blurIntensity),
    styleTransition := some "filter 0.2s ease" }
  updateHoverToUnblur cfg e2

/-- `BlurEngine.removeBlurFromElement` (blur-engine.ts, lines 352–381): drop
the marker attribute and class; restore the snapshotted original filter and
remove its attribute (else remove the filter property); remove the
transition override; detach hover listeners; disconnect the style
observer. -/
def removeBlurFromElement (e : Elem) : Elem :=
  let e1 := { e with hideyBlur := false, blurredClass := false }
  let e2 :=
    match e1.originalFilterAttr with
    | some f =>
        if f ≠ "" then { e1 with styleFilter := some f, originalFilterAttr := none }
        else { e1 with styleFilter := none }
    | none => { e1 with styleFilter := none }
  let e3 := { e2 with styleTransition := none }
  let e4 := if e3.listenersAdded then { e3 with listenersAdded := false } else e3
  if e4.styleObserver then { e4 with styleObserver := false } else e4

/-- What `BlurEngine.removeAllBlur` (blur-engine.ts, lines 517–526) does to
each element carrying `data-hidey-blur`: remove the marker attribute and
class and clear the inline filter (`element.style.filter = ''`) — and
nothing else. -/
def removeAllBlurElem (e : Elem) : Elem :=
  { e with hideyBlur := false, blurredClass := false, styleFilter := none }

/-- The `mouseenter` handler installed by `updateHoverToUnblur`: set the
inline filter to `blur(0px)`. -/
def dispatchMouseEnter (e : Elem) : Elem :=
  if e.listenersAdded then { e with styleFilter := some (blurStr 0) } else e

/-- The `mouseleave` handler installed by `updateHoverToUnblur`: set the
inline filter to `blur(${this.blurIntensity}px)` — the engine's intensity at
event time (the arrow function closes over `this`). -/
def dispatchMouseLeave (cfg : EngineCfg) (e : Elem) : Elem :=
  if e.listenersAdded then { e with styleFilter := some (blurStr cfg.blurIntensity) } else e

/-! ## Rules, rule selection, and selector reconciliation -/

/-- A `BlurRule` record. -/
structure Rule where
  urlPattern : List Char
  selectors : List String
  enabled : Bool
deriving DecidableEq

/-- The rule filter in `BlurEngine.loadState` (blur-engine.ts, lines 95–97):
keep the rules whose pattern matches the current URL and that are enabled. -/
def loadStateRules (rules : List Rule) (url : List Char) : List Rule :=
  rules.filter (fun r => urlMatchesPattern url r.urlPattern && r.enabled)

/-- The rule filter in `getState` (background.ts, lines 316–321): keep rules
with a truthy (non-empty) `urlPattern` and a non-empty `selectors` array. -/
def getStateRules (rules : List Rule) : List Rule :=
  rules.filter (fun r => !r.urlPattern.isEmpty && decide (0 < r.selectors.length))

/-- The document: its elements, and the selector strings the CSS parser
rejects (for which `document.querySelectorAll` throws). -/
structure Doc where
  elems : List Elem
  invalid : List String
deriving DecidableEq

/-- The `elementsToBlur` set built by `BlurEngine.applySelectorBlur`
(blur-engine.ts, lines 214–228): for every rule and every selector,
`querySelectorAll`'s matches are added; a selector that throws is caught and
contributes nothing. -/
def collectToBlur (d : Doc) (rules : List Rule) : List Nat :=
  rules.flatMap (fun rule => rule.selectors.flatMap (fun sel =>
    if d.invalid.contains sel then []
    else (d.elems.filter (fun e => e.keys.contains sel)).map (·.id)))

/-- The `console.warn` diagnostics emitted during the same pass, one per
malformed selector occurrence. -/
def collectWarnings (d : Doc) (rules : List Rule) : List String :=
  rules.flatMap (fun rule => rule.selectors.filter (fun sel => d.invalid.contains sel))

/-- `BlurEngine.applySelectorBlur` (blur-engine.ts, lines 212–242): build
`elementsToBlur`; remove blur from marked elements that are not in it;
apply blur to every element in it.  Returns the updated document and the
diagnostics. -/
def applySelectorBlur (cfg : EngineCfg) (rules : List Rule) (d : Doc) : Doc × List String :=
  let toBlur := collectToBlur d rules
  let elems1 := d.elems.map (fun e =>
    if e.hideyBlur && !toBlur.contains e.id then removeBlurFromElement e else e)
  let elems2 := elems1.map (fun e =>
    if toBlur.contains e.id then applyBlurToElement cfg e else e)
  ({ d with elems := elems2 }, collectWarnings d rules)

/-! ## Region overlay manager -/

/-- A `BlurRegion` record (the `urlPattern` was already used for selection;
the engine's region pass reads the geometry and the container selector). -/
structure Region where
  x : Int
  y : Int
  width : Int
  height : Int
  containerSelector : Option String
deriving DecidableEq

/-- An overlay element (`div.hidey-region-overlay`): `nodeId` models DOM node
identity, `regionId` the `data-region-id` attribute, the rest the style
properties and hover bookkeeping the region pass writes. -/
structure Overlay where
  nodeId : Nat
  regionId : Nat
  width : Int
  height : Int
  filter : String
  backdropFilter : String
  pointerEvents : String
  hoverSetup : Bool
  isHovering : Bool
  left : Int
  top : Int
deriving DecidableEq

/-- Page geometry: the viewport rectangles (left, top) that
`getBoundingClientRect` reports for container selectors and for
`document.body`, and the scroll offsets. -/
structure GeomEnv where
  rects : List (String × Int × Int)
  bodyRect : Int × Int
  scrollX : Int
  scrollY : Int
deriving DecidableEq

/-- Container resolution (blur-engine.ts, lines 389–397): query the
container selector when present; fall back to `document.body` when it is
absent or does not resolve. -/
def resolveContainerRect (env : GeomEnv) (sel : Option String) : Int × Int :=
  match sel with
  | some s => ((env.rects.find? (fun p => p.1 == s)).map (·.2)).getD env.bodyRect
  | none => env.bodyRect

/-- The per-overlay update of `BlurEngine.applyRegionBlur` (blur-engine.ts,
lines 413–506), run on a reused or freshly created overlay: hover setup /
teardown, size, blur (skipped while `data-is-hovering` is set), pointer
events, and position `containerRect + (x, y) + scroll`. -/
def updateOverlayForRegion (cfg : EngineCfg) (env : GeomEnv) (region : Region)
    (ov : Overlay) : Overlay :=
  let ov1 :=
    if cfg.hoverToUnblur ∧ ¬ov.hoverSetup then
      { ov with hoverSetup := true, pointerEvents := "auto" }
    else if ¬cfg.hoverToUnblur ∧ ov.hoverSetup then
      { ov with hoverSetup := false, isHovering := false, pointerEvents := "none" }
    else ov
  let isHov := ov1.isHovering
  let ov2 := { ov1 with width := region.width, height := region.height }
  let ov3 :=
    if ¬isHov then
      { ov2 with
        filter := blurStr cfg.blurIntensity,
        backdropFilter := blurStr cfg.blurIntensity }
    else ov2
  let ov4 :=
    if ¬cfg.hoverToUnblur then { ov3 with pointerEvents := "none" }
    else if ¬ov3.hoverSetup then { ov3 with pointerEvents := "auto" }
    else ov3
  let rect := resolveContainerRect env region.containerSelector
  { ov4 with
    left := rect.1 + region.x + env.scrollX,
    top := rect.2 + region.y + env.scrollY }

/-- Overlay creation (blur-engine.ts, lines 405–411): a fresh
`div.hidey-region-overlay` carrying `data-region-id = index`, then driven
through the shared per-overlay update. -/
def newOverlayFor (cfg : EngineCfg) (env : GeomEnv) (i : Nat) (region : Region)
    (fresh : Nat) : Overlay :=
  updateOverlayForRegion cfg env region
    { nodeId := fresh, regionId := i, width := 0, height := 0, filter := "",
      backdropFilter := "", pointerEvents := "", hoverSetup := false,
      isHovering := false, left := 0, top := 0 }

/-- The `currentRegions.forEach((region, index) => ...)` loop of
`applyRegionBlur`: for each region index, reuse the first existing overlay
whose `data-region-id` equals the index, else create a fresh one.  Returns
the in-place updates to existing overlays (keyed by node identity) and the
created overlays, in order. -/
def regionLoop (cfg : EngineCfg) (env : GeomEnv) (existing : List Overlay)
    (fresh : Nat) (i : Nat) : List Region → List (Nat × Overlay) × List Overlay
  | [] => ([], [])
  | region :: rest =>
    match existing.find? (fun ov => ov.regionId == i) with
    | some ov =>
        let acc := regionLoop cfg env existing fresh (i + 1) rest
        ((ov.nodeId, updateOverlayForRegion cfg env region ov) :: acc.1, acc.2)
    | none =>
        let acc := regionLoop cfg env existing (fresh + 1) (i + 1) rest
        (acc.1, newOverlayFor cfg env i region fresh :: acc.2)

/-- `BlurEngine.applyRegionBlur` (blur-engine.ts, lines 383–515): snapshot
the existing overlays, run the region loop (reusing overlays by
`data-region-id`, creating the missing ones at the end of `document.body`),
then remove every existing overlay that was not used. -/
def applyRegionBlur (cfg : EngineCfg) (env : GeomEnv) (regions : List Region)
    (fresh : Nat) (overlays : List Overlay) : List Overlay :=
  let acc := regionLoop cfg env overlays fresh 0 regions
  (overlays.filterMap (fun ov => acc.1.lookup ov.nodeId)) ++ acc.2

/-! ## Engine top level -/

/-- `BLUR_ENGINE_DEFAULT_INTENSITY` (blur-engine.ts, line 24). -/
def BLUR_ENGINE_DEFAULT_INTENSITY : Nat := 8

/-- JS `x || d` on a possibly-absent number: `undefined` and the falsy `0`
fall through to the default. -/
def jsOrNat (v : Option Nat) (dflt : Nat) : Nat :=
  match v with
  | some n => if n = 0 then dflt else n
  | none => dflt

/-- The stored per-site settings record as `loadState` reads it
(`blurIntensity` and `hoverToUnblur` may be absent). -/
structure SiteRec where
  blurIntensity : Option Nat
  hoverToUnblur : Option Bool
deriving DecidableEq

/-- `this.blurIntensity = this.siteSettings?.blurIntensity ||
BLUR_ENGINE_DEFAULT_INTENSITY` (blur-engine.ts, lines 104–108):
`siteSettings` itself may be `null`. -/
def loadStateIntensity (ss : Option SiteRec) : Nat :=
  jsOrNat (ss.bind (·.blurIntensity)) BLUR_ENGINE_DEFAULT_INTENSITY

/-- `this.blurIntensity = message.blurIntensity ||
BLUR_ENGINE_DEFAULT_INTENSITY` in the `UPDATE_SETTINGS` handler
(blur-engine.ts, line 55). -/
def updateSettingsIntensity (v : Option Nat) : Nat :=
  jsOrNat v BLUR_ENGINE_DEFAULT_INTENSITY

/-- The engine's in-memory state. -/
structure Engine where
  rules : List Rule
  regions : List Region
  enabled : Bool
  blurIntensity : Nat
  hoverToUnblur : Bool
deriving DecidableEq

def Engine.cfg (eng : Engine) : EngineCfg :=
  { blurIntensity := eng.blurIntensity, hoverToUnblur := eng.hoverToUnblur }

/-- `BlurEngine.removeAllBlur` (blur-engine.ts, lines 517–526): strip the
marker attribute, the class and the inline filter from every element
carrying `data-hidey-blur`, and remove every region overlay. -/
def removeAllBlur (d : Doc) (_overlays : List Overlay) : Doc × List Overlay :=
  ({ d with elems := d.elems.map (fun e => if e.hideyBlur then removeAllBlurElem e else e) },
   [])

/-- `BlurEngine.applyBlur` (blur-engine.ts, lines 199–210): when disabled,
`removeAllBlur`; otherwise the selector pass followed by the region pass. -/
def applyBlur (eng : Engine) (env : GeomEnv) (fresh : Nat) (d : Doc)
    (overlays : List Overlay) : Doc × List Overlay :=
  if !eng.enabled then removeAllBlur d overlays
  else
    let d1 := (applySelectorBlur eng.cfg eng.rules d).1
    (d1, applyRegionBlur eng.cfg env eng.regions fresh overlays)

/-- The `UPDATE_SETTINGS` message handler (blur-engine.ts, lines 52–65):
update `enabled` (`message.enabled !== false`), `blurIntensity`
(`message.blurIntensity || default`) and `hoverToUnblur`
(`message.hoverToUnblur || false`); when the hover setting changed, run
`updateHoverToUnblur` over every element carrying `data-hidey-blur`; then
`applyBlur`. -/
def handleUpdateSettings (mEnabled : Option Bool) (mIntensity : Option Nat)
    (mHover : Option Bool) (eng : Engine) (env : GeomEnv) (fresh : Nat)
    (d : Doc) (overlays : List Overlay) : Engine × Doc × List Overlay :=
  let oldHover := eng.hoverToUnblur
  let eng1 := { eng with
    enabled := mEnabled ≠ some false,
    blurIntensity := updateSettingsIntensity mIntensity,
    hoverToUnblur := mHover = some true }
  let d1 :=
    if oldHover ≠ eng1.hoverToUnblur then
      { d with elems := d.elems.map (fun e =>
          if e.hideyBlur then updateHoverToUnblur eng1.cfg e else e) }
    else d
  let res := applyBlur eng1 env fresh d1 overlays
  (eng1, res.1, res.2)

/-- Dispatch of a `mouseenter` event on the element with the given id
(hover handlers fire only where listeners are attached). -/
def docMouseEnter (d : Doc) (i : Nat) : Doc :=
  { d with elems := d.elems.map (fun e => if e.id = i then dispatchMouseEnter e else e) }

/-- Dispatch of a `mouseleave` event on the element with the given id; the
leave handler reads the engine's current intensity at event time. -/
def docMouseLeave (cfg : EngineCfg) (d : Doc) (i : Nat) : Doc :=
  { d with elems := d.elems.map (fun e => if e.id = i then dispatchMouseLeave cfg e else e) }

/-! ## Change scheduler -/

/-- The kinds of DOM mutations relevant to the observer registration
(blur-engine.ts, lines 149–154): attribute changes are delivered only for
`style` and `class` (`attributeFilter`); child-list changes are delivered. -/
inductive MutKind where
  | attrStyle
  | attrClass
  | attrOther
  | childList
deriving DecidableEq

/-- A delivered-or-not mutation record: its kind and whether its target
element currently carries the `data-hidey-blur` marker. -/
structure Mut where
  kind : MutKind
  targetMarked : Bool
deriving DecidableEq

/-- Whether the observer's registration delivers the mutation at all. -/
def delivered (m : Mut) : Bool :=
  match m.kind with
  | .attrOther => false
  | _ => true

/-- The scheduler's state: whether a debounced re-match pass is pending. -/
structure SchedState where
  debounceActive : Bool
deriving DecidableEq

/-- One observer invocation (blur-engine.ts, lines 134–147): the browser
invokes the callback when the burst contains at least one delivered
mutation; the callback ignores the mutation records entirely and
unconditionally (re)schedules the debounced `applySelectorBlur` pass
(`clearTimeout` + `setTimeout`). -/
def processMutations (ms : List Mut) (st : SchedState) : SchedState :=
  if (ms.filter delivered).isEmpty then st
  else { st with debounceActive := true }

/-- Rules with the selectors the CSS parser rejects removed — the reference
point for showing that a malformed selector is skipped without affecting the
rest of the pass. -/
def pruneRules (d : Doc) (rules : List Rule) : List Rule :=
  rules.map (fun r => { r with selectors := r.selectors.filter (fun s => !d.invalid.contains s) })

/-! ## Concrete instances used by individual claims -/

/-- A fully redacted element: marked, classed, with a snapshotted original
filter, hover listeners attached and the style observer connected. -/
def c1Elem : Elem :=
  { id := 0, keys := [], baseFilter := "none", hideyBlur := true,
    blurredClass := true, originalFilterAttr := some "sepia(1)",
    hoverUnblurAttr := true, styleFilter := some (blurStr 8),
    styleTransition := some "filter 0.2s ease", listenersAdded := true,
    styleObserver := true }

def c1Engine : Engine :=
  { rules := [], regions := [], enabled := false, blurIntensity := 8,
    hoverToUnblur := true }

def c1Env : GeomEnv := ⟨[], (0, 0), 0, 0⟩

def c1Overlay : Overlay := ⟨50, 0, 1, 1, "", "", "", false, false, 0, 0⟩

/-- What `removeAllBlur` actually leaves of `c1Elem`: marker attribute and
class gone, inline filter cleared — original-filter attribute, transition,
listeners and observer all still present. -/
def c1ElemAfterRemoveAll : Elem :=
  { c1Elem with hideyBlur := false, blurredClass := false, styleFilter := none }

/-- The full exit transition of `removeBlurFromElement` on `c1Elem`. -/
def c1ElemAfterExit : Elem :=
  { c1Elem with
    hideyBlur := false
    blurredClass := false
    styleFilter := some "sepia(1)"
    originalFilterAttr := none
    styleTransition := none
    listenersAdded := false
    styleObserver := false }

def c7Elem : Elem :=
  { id := 0, keys := [".m"], baseFilter := "none", hideyBlur := false,
    blurredClass := false, originalFilterAttr := none, hoverUnblurAttr := false,
    styleFilter := none, styleTransition := none, listenersAdded := false,
    styleObserver := false }

def c7Engine : Engine :=
  { rules := [⟨"p".toList, [".m"], true⟩], regions := [], enabled := true,
    blurIntensity := 8, hoverToUnblur := true }

def c7Env : GeomEnv := ⟨[], (0, 0), 0, 0⟩

/-- The initial reconciliation: the element is redacted at intensity 8 with
hover-to-unblur listeners attached. -/
def c7AfterApply : Doc × List Overlay :=
  applyBlur c7Engine c7Env 100 ⟨[c7Elem], []⟩ []

/-- The pointer enters the element: the hover handler reveals it. -/
def c7Hovered : Doc := docMouseEnter c7AfterApply.1 0

/-- While the pointer is still inside, a settings update changes the
intensity from 8 to 15 and triggers reconciliation. -/
def c7Updated : Engine × Doc × List Overlay :=
  handleUpdateSettings (some true) (some 15) (some true) c7Engine c7Env 100
    c7Hovered c7AfterApply.2

/-- The pointer finally leaves the element. -/
def c7Left : Doc := docMouseLeave c7Updated.1.cfg c7Updated.2.1 0

def c3Engine : Engine :=
  { rules := [⟨"p".toList, [".m"], true⟩], regions := [], enabled := true,
    blurIntensity := 8, hoverToUnblur := false }

/-- One element matching `.m`, one stale marked element matching nothing. -/
def c3Doc : Doc :=
  ⟨[{ id := 0, keys := [".m"], baseFilter := "none", hideyBlur := false,
      blurredClass := false, originalFilterAttr := none, hoverUnblurAttr := false,
      styleFilter := none, styleTransition := none, listenersAdded := false,
      styleObserver := false },
    { id := 1, keys := [], baseFilter := "none", hideyBlur := true,
      blurredClass := true, originalFilterAttr := none, hoverUnblurAttr := false,
      styleFilter := some (blurStr 8), styleTransition := some "filter 0.2s ease",
      listenersAdded := false, styleObserver := true }], []⟩

def c3Env : GeomEnv := ⟨[], (0, 0), 0, 0⟩

def c6Cfg : EngineCfg := ⟨8, false⟩

def c6Env : GeomEnv := ⟨[], (0, 0), 0, 0⟩

def c6Region : Region := ⟨10, 20, 100, 50, none⟩

/-- An overlay carrying `data-region-id = 0` (still matched) and one carrying
the stale `data-region-id = 5`. -/
def c6Ovs : List Overlay :=
  [⟨3, 0, 100, 50, blurStr 8, blurStr 8, "none", false, false, 10, 20⟩,
   ⟨4, 5, 100, 50, blurStr 8, blurStr 8, "none", false, false, 10, 20⟩]

def c8Rule : Rule := ⟨"https://a.com/*".toList, [], true⟩

def c8BlankRule : Rule := ⟨"https://a.com/*".toList, [""], true⟩

/-- A document with one marked element and the empty selector rejected by
the CSS parser (as in every browser). -/
def c8Doc : Doc :=
  ⟨[{ id := 0, keys := [], baseFilter := "none", hideyBlur := true,
      blurredClass := true, originalFilterAttr := none, hoverUnblurAttr := false,
      styleFilter := some (blurStr 8), styleTransition := some "filter 0.2s ease",
      listenersAdded := false, styleObserver := true }], [""]⟩

def c9Rule : Rule := ⟨"p".toList, ["(bad", ".ok"], true⟩

/-- A document whose CSS parser rejects `(bad`, with one element matching
`.ok`. -/
def c9Doc : Doc :=
  ⟨[{ id := 0, keys := [".ok"], baseFilter := "none", hideyBlur := false,
      blurredClass := false, originalFilterAttr := none, hoverUnblurAttr := false,
      styleFilter := none, styleTransition := none, listenersAdded := false,
      styleObserver := false }], ["(bad"]⟩

/-! ## Lemmas about the glob matcher -/

theorem compileGlob_append (a b : List Char) :
    compileGlob (a ++ b) = compileGlob a ++ compileGlob b := by
  induction a with
  | nil => rfl
  | cons c cs ih => simp [compileGlob, ih]

theorem compileGlob_noStar {a : List Char} (h : '*' ∉ a) :
    compileGlob a = a.map GTok.lit := by
  induction a with
  | nil => rfl
  | cons c cs ih =>
      simp only [List.mem_cons, not_or] at h
      have hc : ¬c = '*' := fun hh => h.1 hh.symm
      simp [compileGlob, hc, ih h.2]

theorem globMatch_lits_append (a : List Char) (ts : List GTok) (s : List Char) :
    globMatch (a.map GTok.lit ++ ts) s = true ↔
      ∃ s2, s = a ++ s2 ∧ globMatch ts s2 = true := by
  induction a generalizing s with
  | nil => simp
  | cons c cs ih =>
      cases s with
      | nil => simp [globMatch]
      | cons x xs =>
          constructor
          · intro hm
            have hm2 : (x == c && globMatch (cs.map GTok.lit ++ ts) xs) = true := hm
            rw [Bool.and_eq_true, beq_iff_eq] at hm2
            obtain ⟨rfl, h2⟩ := hm2
            obtain ⟨s2, rfl, h3⟩ := (ih xs).mp h2
            exact ⟨s2, rfl, h3⟩
          · rintro ⟨s2, hx, h3⟩
            rw [List.cons_append] at hx
            injection hx with h1 h2
            have h4 : globMatch (cs.map GTok.lit ++ ts) xs = true :=
              (ih xs).mpr ⟨s2, h2, h3⟩
            show (x == c && globMatch (cs.map GTok.lit ++ ts) xs) = true
            rw [Bool.and_eq_true, beq_iff_eq]
            exact ⟨h1, h4⟩

theorem globMatch_lits (a s : List Char) :
    globMatch (a.map GTok.lit) s = true ↔ s = a := by
  have := globMatch_lits_append a [] s
  simpa [globMatch] using this

theorem globMatch_star_cons (ts : List GTok) (s : List Char) :
    globMatch (GTok.star :: ts) s = true ↔
      ∃ s1 s2, s = s1 ++ s2 ∧ globMatch ts s2 = true := by
  simp only [globMatch, List.any_eq_true, List.mem_tails]
  constructor
  · rintro ⟨t, ⟨s1, rfl⟩, h⟩
    exact ⟨s1, t, rfl, h⟩
  · rintro ⟨s1, s2, rfl, h⟩
    exact ⟨s2, ⟨s1, rfl⟩, h⟩

/-! ## Lemmas about the element state machine and the selector pass -/

/-- Whether an element matches some selector of some rule that the CSS
parser accepts — the right-hand side of the reconciliation invariant. -/
def elemMatchesRules (d : Doc) (rules : List Rule) (e : Elem) : Bool :=
  rules.any (fun r => r.selectors.any (fun s => !d.invalid.contains s && e.keys.contains s))

theorem updateHoverToUnblur_hideyBlur (cfg : EngineCfg) (e : Elem) :
    (updateHoverToUnblur cfg e).hideyBlur = e.hideyBlur := by
  unfold updateHoverToUnblur
  split_ifs <;> rfl

theorem updateHoverToUnblur_id (cfg : EngineCfg) (e : Elem) :
    (updateHoverToUnblur cfg e).id = e.id := by
  unfold updateHoverToUnblur
  split_ifs <;> rfl

theorem applyBlurToElement_hideyBlur (cfg : EngineCfg) (e : Elem) :
    (applyBlurToElement cfg e).hideyBlur = true := by
  unfold applyBlurToElement
  rw [updateHoverToUnblur_hideyBlur]
  cases h : e.hideyBlur <;> simp only [h, Bool.not_true, Bool.not_false] <;>
    split_ifs <;> first | rfl | (exact h)

theorem applyBlurToElement_id (cfg : EngineCfg) (e : Elem) :
    (applyBlurToElement cfg e).id = e.id := by
  unfold applyBlurToElement
  rw [updateHoverToUnblur_id]
  cases h : e.hideyBlur <;> simp only [h, Bool.not_true, Bool.not_false] <;>
    split_ifs <;> rfl

theorem removeBlurFromElement_hideyBlur (e : Elem) :
    (removeBlurFromElement e).hideyBlur = false := by
  unfold removeBlurFromElement
  cases h : e.originalFilterAttr <;> simp only [h] <;> split_ifs <;> rfl

theorem removeBlurFromElement_id (e : Elem) :
    (removeBlurFromElement e).id = e.id := by
  unfold removeBlurFromElement
  cases h : e.originalFilterAttr <;> simp only [h] <;> split_ifs <;> rfl

theorem mem_collectToBlur {d : Doc} {rules : List Rule} {i : Nat} :
    i ∈ collectToBlur d rules ↔
      ∃ e ∈ d.elems, e.id = i ∧ elemMatchesRules d rules e = true := by
  unfold collectToBlur elemMatchesRules
  constructor
  · intro hi
    obtain ⟨r, hr, hi⟩ := List.mem_flatMap.mp hi
    obtain ⟨sel, hsel, hi⟩ := List.mem_flatMap.mp hi
    cases hcv : d.invalid.contains sel with
    | true => rw [hcv] at hi; simp at hi
    | false =>
        rw [hcv] at hi
        simp only [Bool.false_eq_true, if_false, List.mem_map, List.mem_filter] at hi
        obtain ⟨e, ⟨he, hk⟩, rfl⟩ := hi
        refine ⟨e, he, rfl, ?_⟩
        rw [List.any_eq_true]
        refine ⟨r, hr, ?_⟩
        rw [List.any_eq_true]
        exact ⟨sel, hsel, by rw [Bool.and_eq_true, hcv]; exact ⟨rfl, hk⟩⟩
  · rintro ⟨e, he, rfl, hm⟩
    obtain ⟨r, hr, hm⟩ := List.any_eq_true.mp hm
    obtain ⟨sel, hsel, hm⟩ := List.any_eq_true.mp hm
    rw [Bool.and_eq_true] at hm
    have hcv : d.invalid.contains sel = false := by
      have h1 := hm.1
      revert h1
      cases d.invalid.contains sel <;> simp
    refine List.mem_flatMap.mpr ⟨r, hr, List.mem_flatMap.mpr ⟨sel, hsel, ?_⟩⟩
    rw [hcv]
    simp only [Bool.false_eq_true, if_false, List.mem_map]
    exact ⟨e, List.mem_filter.mpr ⟨he, hm.2⟩, rfl⟩

theorem contains_collectToBlur {d : Doc} {rules : List Rule} {e : Elem}
    (hnd : (d.elems.map (·.id)).Nodup) (he : e ∈ d.elems) :
    (collectToBlur d rules).contains e.id = elemMatchesRules d rules e := by
  by_cases h : elemMatchesRules d rules e = true
  · rw [h]
    rw [List.contains_iff_exists_mem_beq]
    exact ⟨e.id, mem_collectToBlur.mpr ⟨e, he, rfl, h⟩, by simp⟩
  · simp only [Bool.not_eq_true] at h
    rw [h]
    rw [Bool.eq_false_iff]
    intro hc
    rw [List.contains_iff_exists_mem_beq] at hc
    obtain ⟨j, hj, hbeq⟩ := hc
    have hij : e.id = j := by simpa using hbeq
    rw [← hij] at hj
    obtain ⟨e2, he2, hid, hm2⟩ := mem_collectToBlur.mp hj
    have he2e : e2 = e := List.inj_on_of_nodup_map hnd he2 he hid
    rw [he2e] at hm2
    rw [hm2] at h
    simp at h

/-- The list-level core of the reconciliation equality: if a transformation
preserves ids and sets the marker exactly according to a predicate, the
marked ids afterwards are the ids satisfying the predicate. -/
theorem filter_map_marked {L : List Elem} {f : Elem → Elem} {p : Elem → Bool}
    (h : ∀ e ∈ L, (f e).hideyBlur = p e ∧ (f e).id = e.id) :
    (((L.map f).filter (·.hideyBlur)).map (·.id)) = ((L.filter p).map (·.id)) := by
  induction L with
  | nil => rfl
  | cons a l ih =>
      have ha := h a (List.mem_cons_self a l)
      have hl : ∀ e ∈ l, (f e).hideyBlur = p e ∧ (f e).id = e.id :=
        fun e hmem => h e (List.mem_cons_of_mem a hmem)
      rw [List.map_cons, List.filter_cons, List.filter_cons, ha.1]
      cases hp : p a <;> simp [hp, ih hl, ha.2]

/-! ## Lemmas about the region overlay pass -/

theorem updateOverlayForRegion_regionId (cfg : EngineCfg) (env : GeomEnv)
    (r : Region) (ov : Overlay) :
    (updateOverlayForRegion cfg env r ov).regionId = ov.regionId := by
  simp only [updateOverlayForRegion]
  split_ifs <;> rfl

theorem updateOverlayForRegion_nodeId (cfg : EngineCfg) (env : GeomEnv)
    (r : Region) (ov : Overlay) :
    (updateOverlayForRegion cfg env r ov).nodeId = ov.nodeId := by
  simp only [updateOverlayForRegion]
  split_ifs <;> rfl

theorem newOverlayFor_regionId (cfg : EngineCfg) (env : GeomEnv) (i : Nat)
    (r : Region) (fresh : Nat) :
    (newOverlayFor cfg env i r fresh).regionId = i := by
  unfold newOverlayFor
  rw [updateOverlayForRegion_regionId]

theorem find_region_some {ex : List Overlay} {j : Nat} {ov : Overlay}
    (h : ex.find? (fun o => o.regionId == j) = some ov) :
    ov ∈ ex ∧ ov.regionId = j := by
  refine ⟨List.mem_of_find?_eq_some h, ?_⟩
  have := List.find?_some h
  simpa using this

theorem regionLoop_upds_mem {cfg : EngineCfg} {env : GeomEnv} {ex : List Overlay}
    {rs : List Region} {fresh i : Nat} {kv : Nat × Overlay}
    (h : kv ∈ (regionLoop cfg env ex fresh i rs).1) :
    ∃ j ov, i ≤ j ∧ j < i + rs.length ∧
      ex.find? (fun o => o.regionId == j) = some ov ∧
      kv.1 = ov.nodeId ∧ kv.2.regionId = j ∧ kv.2.nodeId = ov.nodeId := by
  induction rs generalizing fresh i with
  | nil => simp [regionLoop] at h
  | cons r rest ih =>
      rw [regionLoop] at h
      cases hf : ex.find? (fun o => o.regionId == i) with
      | some ov =>
          rw [hf] at h
          simp only [List.mem_cons] at h
          cases h with
          | inl hkv =>
              subst hkv
              refine ⟨i, ov, le_refl i, by simp, hf, rfl, ?_, ?_⟩
              · rw [updateOverlayForRegion_regionId]
                exact (find_region_some hf).2
              · rw [updateOverlayForRegion_nodeId]
          | inr hkv =>
              obtain ⟨j, ov2, hj1, hj2, hfind, h1, h2, h3⟩ := ih hkv
              refine ⟨j, ov2, by omega, ?_, hfind, h1, h2, h3⟩
              simp only [List.length_cons]
              omega
      | none =>
          rw [hf] at h
          obtain ⟨j, ov2, hj1, hj2, hfind, h1, h2, h3⟩ := ih h
          refine ⟨j, ov2, by omega, ?_, hfind, h1, h2, h3⟩
          simp only [List.length_cons]
          omega

theorem regionLoop_created_mem {cfg : EngineCfg} {env : GeomEnv} {ex : List Overlay}
    {rs : List Region} {fresh i : Nat} {c : Overlay}
    (h : c ∈ (regionLoop cfg env ex fresh i rs).2) :
    i ≤ c.regionId ∧ c.regionId < i + rs.length ∧
      ex.find? (fun o => o.regionId == c.regionId) = none := by
  induction rs generalizing fresh i with
  | nil => simp [regionLoop] at h
  | cons r rest ih =>
      rw [regionLoop] at h
      cases hf : ex.find? (fun o => o.regionId == i) with
      | some ov =>
          rw [hf] at h
          obtain ⟨h1, h2, h3⟩ := ih h
          refine ⟨by omega, ?_, h3⟩
          simp only [List.length_cons]
          omega
      | none =>
          rw [hf] at h
          simp only [List.mem_cons] at h
          cases h with
          | inl hc =>
              subst hc
              rw [newOverlayFor_regionId]
              exact ⟨le_refl i, by simp, hf⟩
          | inr hc =>
              obtain ⟨h1, h2, h3⟩ := ih hc
              refine ⟨by omega, ?_, h3⟩
              simp only [List.length_cons]
              omega

theorem regionLoop_covers_matched {cfg : EngineCfg} {env : GeomEnv} {ex : List Overlay}
    {rs : List Region} {fresh i j : Nat} {ov : Overlay}
    (hj1 : i ≤ j) (hj2 : j < i + rs.length)
    (hf : ex.find? (fun o => o.regionId == j) = some ov) :
    ∃ v, (ov.nodeId, v) ∈ (regionLoop cfg env ex fresh i rs).1 ∧
      v.regionId = j ∧ v.nodeId = ov.nodeId := by
  induction rs generalizing fresh i with
  | nil => simp at hj2; omega
  | cons r rest ih =>
      by_cases hij : j = i
      · subst hij
        rw [regionLoop, hf]
        refine ⟨updateOverlayForRegion cfg env r ov, List.mem_cons_self _ _, ?_, ?_⟩
        · rw [updateOverlayForRegion_regionId]
          exact (find_region_some hf).2
        · rw [updateOverlayForRegion_nodeId]
      · have hj1' : i + 1 ≤ j := by omega
        have hj2' : j < (i + 1) + rest.length := by
          simp only [List.length_cons] at hj2
          omega
        rw [regionLoop]
        cases hf2 : ex.find? (fun o => o.regionId == i) with
        | some ov2 =>
            obtain ⟨v, hv, h1, h2⟩ := @ih fresh (i + 1) hj1' hj2'
            exact ⟨v, List.mem_cons_of_mem _ hv, h1, h2⟩
        | none =>
            obtain ⟨v, hv, h1, h2⟩ := @ih (fresh + 1) (i + 1) hj1' hj2'
            exact ⟨v, hv, h1, h2⟩

theorem regionLoop_covers_unmatched {cfg : EngineCfg} {env : GeomEnv} {ex : List Overlay}
    {rs : List Region} {fresh i j : Nat}
    (hj1 : i ≤ j) (hj2 : j < i + rs.length)
    (hf : ex.find? (fun o => o.regionId == j) = none) :
    ∃ c ∈ (regionLoop cfg env ex fresh i rs).2, c.regionId = j := by
  induction rs generalizing fresh i with
  | nil => simp at hj2; omega
  | cons r rest ih =>
      by_cases hij : j = i
      · subst hij
        rw [regionLoop, hf]
        exact ⟨newOverlayFor cfg env j r fresh, List.mem_cons_self _ _,
          newOverlayFor_regionId cfg env j r fresh⟩
      · have hj1' : i + 1 ≤ j := by omega
        have hj2' : j < (i + 1) + rest.length := by
          simp only [List.length_cons] at hj2
          omega
        rw [regionLoop]
        cases hf2 : ex.find? (fun o => o.regionId == i) with
        | some ov2 =>
            obtain ⟨c, hc, h1⟩ := @ih fresh (i + 1) hj1' hj2'
            exact ⟨c, hc, h1⟩
        | none =>
            obtain ⟨c, hc, h1⟩ := @ih (fresh + 1) (i + 1) hj1' hj2'
            exact ⟨c, List.mem_cons_of_mem _ hc, h1⟩

theorem regionLoop_upds_regionIds_nodup {cfg : EngineCfg} {env : GeomEnv}
    {ex : List Overlay} {rs : List Region} {fresh i : Nat} :
    ((regionLoop cfg env ex fresh i rs).1.map (fun kv => kv.2.regionId)).Nodup := by
  induction rs generalizing fresh i with
  | nil => simp [regionLoop]
  | cons r rest ih =>
      rw [regionLoop]
      cases hf : ex.find? (fun o => o.regionId == i) with
      | some ov =>
          simp only [List.map_cons, List.nodup_cons]
          refine ⟨?_, ih⟩
          intro hmem
          obtain ⟨kv, hkv, heq⟩ := List.mem_map.mp hmem
          obtain ⟨j, ov2, hj1, _, _, _, h2, _⟩ := regionLoop_upds_mem hkv
          rw [updateOverlayForRegion_regionId, (find_region_some hf).2] at heq
          omega
      | none => exact ih

theorem regionLoop_created_regionIds_nodup {cfg : EngineCfg} {env : GeomEnv}
    {ex : List Overlay} {rs : List Region} {fresh i : Nat} :
    ((regionLoop cfg env ex fresh i rs).2.map (·.regionId)).Nodup := by
  induction rs generalizing fresh i with
  | nil => simp [regionLoop]
  | cons r rest ih =>
      rw [regionLoop]
      cases hf : ex.find? (fun o => o.regionId == i) with
      | some ov => exact ih
      | none =>
          simp only [List.map_cons, List.nodup_cons]
          refine ⟨?_, ih⟩
          intro hmem
          obtain ⟨c, hc, heq⟩ := List.mem_map.mp hmem
          obtain ⟨hj1, _, _⟩ := regionLoop_created_mem hc
          rw [newOverlayFor_regionId] at heq
          omega

theorem regionLoop_keys_nodup {cfg : EngineCfg} {env : GeomEnv}
    {ex : List Overlay} {rs : List Region} {fresh i : Nat}
    (hex : (ex.map (·.nodeId)).Nodup) :
    ((regionLoop cfg env ex fresh i rs).1.map (·.1)).Nodup := by
  induction rs generalizing fresh i with
  | nil => simp [regionLoop]
  | cons r rest ih =>
      rw [regionLoop]
      cases hf : ex.find? (fun o => o.regionId == i) with
      | some ov =>
          simp only [List.map_cons, List.nodup_cons]
          refine ⟨?_, ih⟩
          intro hmem
          obtain ⟨kv, hkv, heq⟩ := List.mem_map.mp hmem
          obtain ⟨j, ov2, hj1, _, hfind2, h1, _, _⟩ := regionLoop_upds_mem hkv
          have hov : ov ∈ ex ∧ ov.regionId = i := find_region_some hf
          have hov2 : ov2 ∈ ex ∧ ov2.regionId = j := find_region_some hfind2
          have : ov2 = ov :=
            List.inj_on_of_nodup_map hex hov2.1 hov.1 (by rw [← h1, heq])
          rw [← this, hov2.2] at hov
          omega
      | none => exact ih

theorem lookup_mem_entry {β : Type} {l : List (Nat × β)} {k : Nat} {v : β}
    (h : l.lookup k = some v) : (k, v) ∈ l := by
  induction l with
  | nil => simp [List.lookup] at h
  | cons kv es ih =>
      rw [List.lookup] at h
      cases hbeq : (k == kv.1) with
      | true =>
          rw [hbeq] at h
          injection h with h2
          have hk : k = kv.1 := by simpa using hbeq
          exact List.mem_cons.mpr (Or.inl (by rw [hk, ← h2]))
      | false =>
          rw [hbeq] at h
          exact List.mem_cons_of_mem _ (ih h)

theorem lookup_of_keys_nodup {β : Type} {l : List (Nat × β)} {k : Nat} {v : β}
    (hnd : (l.map (·.1)).Nodup) (hm : (k, v) ∈ l) : l.lookup k = some v := by
  induction l with
  | nil => simp at hm
  | cons kv es ih =>
      simp only [List.map_cons, List.nodup_cons] at hnd
      rw [List.lookup]
      cases List.mem_cons.mp hm with
      | inl h =>
          have h1 : k = kv.1 := congrArg Prod.fst h
          have h2 : v = kv.2 := congrArg Prod.snd h
          have hbeq : (k == kv.1) = true := beq_iff_eq.mpr h1
          rw [hbeq, h2]
      | inr h =>
          have hk : (k == kv.1) = false := by
            rw [beq_eq_false_iff_ne]
            intro hkk
            exact hnd.1 (List.mem_map.mpr ⟨(k, v), h, hkk⟩)
          rw [hk]
          exact ih hnd.2 h

theorem kept_regionIds_nodup {upds : List (Nat × Overlay)} {ex2 : List Overlay}
    (hex2 : (ex2.map (·.nodeId)).Nodup)
    (hrids : (upds.map (fun kv => kv.2.regionId)).Nodup) :
    ((ex2.filterMap (fun ov => upds.lookup ov.nodeId)).map (·.regionId)).Nodup := by
  induction ex2 with
  | nil => simp
  | cons ov ex2' ih =>
      simp only [List.map_cons, List.nodup_cons] at hex2
      rw [List.filterMap_cons]
      cases hl : upds.lookup ov.nodeId with
      | none => exact ih hex2.2
      | some v =>
          simp only [List.map_cons, List.nodup_cons]
          refine ⟨?_, ih hex2.2⟩
          intro hmem
          obtain ⟨v2, hv2, heq⟩ := List.mem_map.mp hmem
          obtain ⟨ov2, hov2, hl2⟩ := List.mem_filterMap.mp hv2
          have he1 : (ov.nodeId, v) ∈ upds := lookup_mem_entry hl
          have he2 : (ov2.nodeId, v2) ∈ upds := lookup_mem_entry hl2
          have : (ov2.nodeId, v2) = (ov.nodeId, v) :=
            List.inj_on_of_nodup_map hrids he2 he1 heq
          have hnid : ov2.nodeId = ov.nodeId := congrArg Prod.fst this
          exact hex2.1 (List.mem_map.mpr ⟨ov2, hov2, hnid⟩)

/-! ## Claim theorems -/

/-- C1: the claim states that disabling redaction globally (`applyBlur` with
`enabled = false`, which runs `removeAllBlur`) drives every marked element
through the same exit transition as `removeBlurFromElement`.  Evaluating the
code on a fully redacted element shows otherwise: `removeAllBlur` removes
the marker attribute and class, clears the inline filter and removes every
overlay, but leaves `data-hidey-original-filter` (instead of restoring
`sepia(1)`), the transition override, the hover listeners and the connected
style observer in place — unlike `removeBlurFromElement`, which clears all
of them.  The leftover observer will even re-apply blur on the element's
next style mutation, defeating the disable. -/
theorem c1_removeAllBlur_leaves_residual_state :
    (applyBlur c1Engine c1Env 100 ⟨[c1Elem], []⟩ [c1Overlay]).2 = []
    ∧ (applyBlur c1Engine c1Env 100 ⟨[c1Elem], []⟩ [c1Overlay]).1.elems = [c1ElemAfterRemoveAll]
    ∧ c1ElemAfterRemoveAll.originalFilterAttr = some "sepia(1)"
    ∧ c1ElemAfterRemoveAll.styleTransition = some "filter 0.2s ease"
    ∧ c1ElemAfterRemoveAll.listenersAdded = true
    ∧ c1ElemAfterRemoveAll.styleObserver = true
    ∧ removeBlurFromElement c1Elem = c1ElemAfterExit := by
  decide

/-- C2: the claim states that the pattern matching used to select rules and
regions strips a leading `www.` and makes it optional, so
`https://example.com/*` matches both URL variants.  The engine's own matcher
(`BlurEngine.urlMatchesPattern`, the one `loadState` uses to select rules
and regions) has no `www.` handling and rejects the `www.` variant; only the
background's `urlMatchesPattern` helper behaves as claimed. -/
theorem c2_engine_matcher_lacks_www_symmetry :
    urlMatchesPattern "https://www.example.com/path".toList "https://example.com/*".toList = false
    ∧ urlMatchesPattern "https://example.com/path".toList "https://example.com/*".toList = true
    ∧ bgUrlMatchesPattern "https://www.example.com/path".toList "https://example.com/*".toList = true
    ∧ bgUrlMatchesPattern "https://example.com/path".toList "https://example.com/*".toList = true := by
  decide

/-- C4 (counterexample): the claim states that `?` in a pattern matches
exactly one arbitrary character; the code escapes `?` to `\?`, so `a?`
fails to match `ab` and matches only the literal string `a?`. -/
theorem c4_question_mark_is_literal :
    urlMatchesPattern "ab".toList "a?".toList = false
    ∧ urlMatchesPattern "a?".toList "a?".toList = true := by
  decide

/-- C4 (amended): the compiled wildcard pattern is anchored to the whole
string, a star-free pattern — including `.` and `?`, both escaped — matches
exactly itself, and `*` matches any sequence of characters: a pattern
`a*b` with star-free `a`, `b` matches exactly the strings `a ++ m ++ b`. -/
theorem c4_wildcard_semantics (a b s : List Char) (ha : '*' ∉ a) (hb : '*' ∉ b) :
    (urlMatchesPattern s a = true ↔ s = a)
    ∧ (urlMatchesPattern s (a ++ '*' :: b) = true ↔ ∃ m, s = a ++ m ++ b) := by
  constructor
  · rw [urlMatchesPattern, compileGlob_noStar ha, globMatch_lits]
  · rw [urlMatchesPattern, compileGlob_append, compileGlob_noStar ha]
    have h1 : compileGlob ('*' :: b) = GTok.star :: compileGlob b := by
      simp [compileGlob]
    rw [h1, compileGlob_noStar hb, globMatch_lits_append]
    constructor
    · rintro ⟨s2, rfl, h⟩
      obtain ⟨m, s3, rfl, h3⟩ := (globMatch_star_cons _ _).mp h
      rw [(globMatch_lits b s3).mp h3]
      exact ⟨m, by rw [List.append_assoc]⟩
    · rintro ⟨m, rfl⟩
      refine ⟨m ++ b, by rw [List.append_assoc], ?_⟩
      exact (globMatch_star_cons _ _).mpr ⟨m, b, rfl, (globMatch_lits b b).mpr rfl⟩

/-- C4 (witness): the amended statement at the star-free pattern `a?.x`
and the starred pattern `a?.x*y`. -/
theorem c4_wildcard_semantics_witness :
    (urlMatchesPattern "a?.x".toList "a?.x".toList = true ↔ "a?.x".toList = "a?.x".toList)
    ∧ (urlMatchesPattern "a?.x".toList ("a?.x".toList ++ '*' :: "y".toList) = true ↔
        ∃ m, "a?.x".toList = "a?.x".toList ++ m ++ "y".toList) :=
  c4_wildcard_semantics "a?.x".toList "y".toList "a?.x".toList (by decide) (by decide)

/-- C5 (counterexample): the claim states that an attribute mutation on an
element already carrying the redacted marker schedules no re-match pass.
The observer callback ignores its mutation records entirely: a burst
consisting of exactly one style-attribute mutation on a marked element
still schedules the debounced pass. -/
theorem c5_marked_attr_mutation_schedules :
    (processMutations [⟨MutKind.attrStyle, true⟩] ⟨false⟩).debounceActive = true := by
  decide

/-- C5 (amended): every burst containing at least one delivered mutation —
and a style-attribute change on a marked element is delivered, since the
observer filters only by attribute name, never by the marker — schedules
the debounced re-match pass; the scheduler performs no marker-based
filtering. -/
theorem c5_every_delivered_burst_schedules (ms : List Mut) (st : SchedState)
    (h : ∃ m ∈ ms, delivered m = true) :
    processMutations ms st = ⟨true⟩
    ∧ delivered ⟨MutKind.attrStyle, true⟩ = true := by
  refine ⟨?_, rfl⟩
  obtain ⟨m, hm, hd⟩ := h
  have hne : ms.filter delivered ≠ [] :=
    List.ne_nil_of_mem (List.mem_filter.mpr ⟨hm, hd⟩)
  unfold processMutations
  cases hh : (ms.filter delivered).isEmpty with
  | true => exact absurd (List.isEmpty_iff.mp hh) hne
  | false => rfl

/-- C5 (witness): the amended statement at the single-mutation burst. -/
theorem c5_every_delivered_burst_schedules_witness :
    processMutations [⟨MutKind.attrStyle, true⟩] ⟨false⟩ = ⟨true⟩
    ∧ delivered ⟨MutKind.attrStyle, true⟩ = true :=
  c5_every_delivered_burst_schedules [⟨MutKind.attrStyle, true⟩] ⟨false⟩
    ⟨⟨MutKind.attrStyle, true⟩, List.mem_singleton.mpr rfl, rfl⟩

/-- C7 (counterexample): the claim states that after `blurIntensity` changes
from 8 to 15 while the pointer hovers a hover-revealed element, the element
stays at intensity 0 until the pointer leaves.  In the trace below the
element is revealed (`blur(0px)`), then the settings update runs
reconciliation, and `applyBlurToElement` unconditionally re-applies
`blur(15px)` while the pointer is still inside. -/
theorem c7_hover_reveal_not_preserved :
    (c7Hovered.elems.map (·.styleFilter)) = [some (blurStr 0)]
    ∧ (c7Updated.2.1.elems.map (·.styleFilter)) = [some (blurStr 15)]
    ∧ ¬blurStr 15 = blurStr 0 := by
  decide

/-- C7 (amended): changing `blurIntensity` from 8 to 15 during hover
immediately re-blurs the hovered element at the new intensity 15 (the
reveal is not preserved), and after the pointer leaves, the element is at
the new intensity 15, not the old 8 (the leave handler reads the engine's
current intensity). -/
theorem c7_intensity_update_reblurs_hovered :
    (c7Hovered.elems.map (·.styleFilter)) = [some (blurStr 0)]
    ∧ (c7Updated.2.1.elems.map (·.styleFilter)) = [some (blurStr 15)]
    ∧ (c7Left.elems.map (·.styleFilter)) = [some (blurStr 15)]
    ∧ ¬blurStr 15 = blurStr 8 := by
  decide

/-- C10: a settings-update message with `blurIntensity` 0 or absent, and a
stored site-settings record with `blurIntensity` 0 or absent (or no record
at all), both yield the default intensity 8 (`x || default` on a falsy
value); consequently the engine never operates at a configured intensity
of 0. -/
theorem c10_zero_intensity_defaults (v : Option Nat) (ss : Option SiteRec) :
    ((v = none ∨ v = some 0) → updateSettingsIntensity v = BLUR_ENGINE_DEFAULT_INTENSITY)
    ∧ ((ss = none ∨ ∃ r, ss = some r ∧ (r.blurIntensity = none ∨ r.blurIntensity = some 0)) →
        loadStateIntensity ss = BLUR_ENGINE_DEFAULT_INTENSITY)
    ∧ ¬updateSettingsIntensity v = 0
    ∧ ¬loadStateIntensity ss = 0 := by
  refine ⟨?_, ?_, ?_, ?_⟩
  · rintro (rfl | rfl) <;> rfl
  · rintro (rfl | ⟨r, rfl, h | h⟩)
    · rfl
    · simp [loadStateIntensity, jsOrNat, h]
    · simp [loadStateIntensity, jsOrNat, h]
  · unfold updateSettingsIntensity jsOrNat BLUR_ENGINE_DEFAULT_INTENSITY
    cases v with
    | none => decide
    | some n =>
        show ¬(if n = 0 then 8 else n) = 0
        split_ifs with h
        · decide
        · exact h
  · unfold loadStateIntensity jsOrNat BLUR_ENGINE_DEFAULT_INTENSITY
    cases ss with
    | none => decide
    | some r =>
        show ¬(match r.blurIntensity with
               | some n => if n = 0 then 8 else n
               | none => 8) = 0
        cases hr : r.blurIntensity with
        | none => decide
        | some n =>
            show ¬(if n = 0 then 8 else n) = 0
            split_ifs with h
            · decide
            · exact h

/-- C10 (witness): the default applies at the concrete falsy inputs. -/
theorem c10_zero_intensity_defaults_witness :
    updateSettingsIntensity (some 0) = BLUR_ENGINE_DEFAULT_INTENSITY
    ∧ loadStateIntensity (some ⟨some 0, none⟩) = BLUR_ENGINE_DEFAULT_INTENSITY :=
  ⟨(c10_zero_intensity_defaults (some 0) (some ⟨some 0, none⟩)).1 (Or.inr rfl),
   (c10_zero_intensity_defaults (some 0) (some ⟨some 0, none⟩)).2.1
     (Or.inr ⟨⟨some 0, none⟩, rfl, Or.inr rfl⟩)⟩

/-! ## Remaining helper lemmas for the selector pass -/

theorem selectorStep_hideyBlur (cfg : EngineCfg) (toBlur : List Nat) (e : Elem) :
    ((fun x => if toBlur.contains x.id then applyBlurToElement cfg x else x)
      ((fun x => if x.hideyBlur && !toBlur.contains x.id then removeBlurFromElement x else x) e)).hideyBlur
      = toBlur.contains e.id := by
  by_cases hm : e.id ∈ toBlur
  · have hc : toBlur.contains e.id = true := by simpa using hm
    simp [hc, hm, applyBlurToElement_hideyBlur]
  · have hc : toBlur.contains e.id = false := by simpa using hm
    cases hb : e.hideyBlur with
    | true => simp [hc, hm, hb, removeBlurFromElement_id, removeBlurFromElement_hideyBlur]
    | false => simp [hc, hm, hb]

theorem selectorStep_id (cfg : EngineCfg) (toBlur : List Nat) (e : Elem) :
    ((fun x => if toBlur.contains x.id then applyBlurToElement cfg x else x)
      ((fun x => if x.hideyBlur && !toBlur.contains x.id then removeBlurFromElement x else x) e)).id
      = e.id := by
  by_cases hm : e.id ∈ toBlur
  · have hc : toBlur.contains e.id = true := by simpa using hm
    simp [hc, hm, applyBlurToElement_id]
  · have hc : toBlur.contains e.id = false := by simpa using hm
    cases hb : e.hideyBlur with
    | true => simp [hc, hm, hb, removeBlurFromElement_id]
    | false => simp [hc, hm, hb]

theorem flatMap_filter_invalid (inv : List String) (g : String → List Nat)
    (sels : List String) :
    (sels.filter (fun s => !inv.contains s)).flatMap
        (fun s => if inv.contains s then [] else g s)
      = sels.flatMap (fun s => if inv.contains s then [] else g s) := by
  induction sels with
  | nil => rfl
  | cons s ss ih =>
      by_cases hcv : inv.contains s = true
      · rw [List.filter_cons, if_neg (by rw [hcv]; simp)]
        rw [ih, List.flatMap_cons, if_pos hcv]
        simp
      · have hcf : inv.contains s = false := by
          revert hcv
          cases inv.contains s <;> simp
        rw [List.filter_cons, if_pos (by rw [hcf]; rfl)]
        rw [List.flatMap_cons, List.flatMap_cons, ih]

theorem collect_pruneRules (d : Doc) (rules : List Rule) :
    collectToBlur d (pruneRules d rules) = collectToBlur d rules := by
  unfold collectToBlur pruneRules
  induction rules with
  | nil => rfl
  | cons r rs ih =>
      rw [List.map_cons, List.flatMap_cons, List.flatMap_cons, ih]
      congr 1
      exact flatMap_filter_invalid d.invalid _ r.selectors

/-! ## Remaining claim theorems -/

/-- C3: after a reconciliation pass with `enabled = true`, the ids of the
elements carrying the `data-hidey-blur` marker are exactly the ids of the
elements matched by some parser-accepted selector of some current rule:
every matched element is marked, and every previously marked element that
no longer matches is unmarked in the same pass. -/
theorem c3_selector_reconciliation (eng : Engine) (env : GeomEnv) (fresh : Nat)
    (d : Doc) (ovs : List Overlay) (hen : eng.enabled = true)
    (hnd : (d.elems.map (·.id)).Nodup) :
    (((applyBlur eng env fresh d ovs).1.elems.filter (·.hideyBlur)).map (·.id))
      = ((d.elems.filter (elemMatchesRules d eng.rules)).map (·.id)) := by
  have happ : (applyBlur eng env fresh d ovs).1 = (applySelectorBlur eng.cfg eng.rules d).1 := by
    rw [applyBlur, hen]
    rfl
  rw [happ]
  simp only [applySelectorBlur]
  rw [List.map_map]
  refine filter_map_marked ?_
  intro e he
  exact ⟨(selectorStep_hideyBlur eng.cfg (collectToBlur d eng.rules) e).trans
      (contains_collectToBlur hnd he),
    selectorStep_id eng.cfg (collectToBlur d eng.rules) e⟩

/-- C3 (witness): the reconciliation equality at a concrete engine and
document: one element matching `.m`, one stale marked element. -/
theorem c3_selector_reconciliation_witness :
    (((applyBlur c3Engine c3Env 100 c3Doc []).1.elems.filter (·.hideyBlur)).map (·.id))
      = ((c3Doc.elems.filter (elemMatchesRules c3Doc c3Engine.rules)).map (·.id)) :=
  c3_selector_reconciliation c3Engine c3Env 100 c3Doc [] rfl (by decide)

/-- C9: a malformed selector is caught per-selector: the pass computes the
same document as if the rejected selectors had been dropped (so every other
selector of the same rule and of every other rule still applies and the
pass is never aborted), and each rejected selector is reported in the
diagnostics. -/
theorem c9_malformed_selector_isolated (cfg : EngineCfg) (rules : List Rule) (d : Doc) :
    (applySelectorBlur cfg rules d).1 = (applySelectorBlur cfg (pruneRules d rules) d).1
    ∧ (∀ r ∈ rules, ∀ s ∈ r.selectors, d.invalid.contains s = true →
        s ∈ (applySelectorBlur cfg rules d).2) := by
  constructor
  · simp only [applySelectorBlur, collect_pruneRules]
  · intro r hr s hs hv
    show s ∈ collectWarnings d rules
    exact List.mem_flatMap.mpr ⟨r, hr, List.mem_filter.mpr ⟨hs, hv⟩⟩

/-- C9 (witness): with the rule `["(bad", ".ok"]` over a document whose
parser rejects `"(bad"`, the pass equals the pruned pass, the matching
element is still marked, and the malformed selector is reported. -/
theorem c9_malformed_selector_isolated_witness :
    (applySelectorBlur ⟨8, false⟩ [c9Rule] c9Doc).1
      = (applySelectorBlur ⟨8, false⟩ (pruneRules c9Doc [c9Rule]) c9Doc).1
    ∧ "(bad" ∈ (applySelectorBlur ⟨8, false⟩ [c9Rule] c9Doc).2 :=
  ⟨(c9_malformed_selector_isolated ⟨8, false⟩ [c9Rule] c9Doc).1,
   (c9_malformed_selector_isolated ⟨8, false⟩ [c9Rule] c9Doc).2 c9Rule (by decide)
     "(bad" (by decide) (by decide)⟩

/-- C8 (counterexample): the claim states that a rule with an empty selector
list is excluded entirely from the working set.  The engine's `loadState`
filter checks only the URL pattern and the enabled flag: the empty rule
stays in the working set. -/
theorem c8_empty_rule_not_excluded :
    loadStateRules [c8Rule] "https://a.com/x".toList = [c8Rule] := by
  decide

/-- C8 (amended): a rule with zero selectors or only empty-string selectors
(which the CSS parser rejects) contributes no marked elements — a
reconciliation pass with it as the only rule leaves no element marked — but
it is a no-op, not an exclusion: the engine's `loadState` keeps it in the
working set whenever it matches and is enabled; only the background's
`getState` drops the zero-selector case, and it keeps rules whose selectors
are empty strings. -/
theorem c8_empty_rule_is_noop (cfg : EngineCfg) (r : Rule) (d : Doc) (url : List Char)
    (hsel : ∀ s ∈ r.selectors, s = "") (hinv : "" ∈ d.invalid) :
    ((applySelectorBlur cfg [r] d).1.elems.filter (·.hideyBlur)) = []
    ∧ (urlMatchesPattern url r.urlPattern = true → r.enabled = true →
        loadStateRules [r] url = [r])
    ∧ (r.selectors = [] → getStateRules [r] = [])
    ∧ (¬r.urlPattern = [] → ¬r.selectors = [] → getStateRules [r] = [r]) := by
  have hcontains : d.invalid.contains "" = true := by
    rw [List.contains_iff_exists_mem_beq]
    exact ⟨"", hinv, by simp⟩
  have hcol : collectToBlur d [r] = [] := by
    unfold collectToBlur
    rw [List.flatMap_eq_nil_iff]
    intro rr hrr
    have hre : rr = r := by simpa using hrr
    subst hre
    rw [List.flatMap_eq_nil_iff]
    intro s hs
    rw [hsel s hs, hcontains]
    simp
  refine ⟨?_, ?_, ?_, ?_⟩
  · rw [List.filter_eq_nil_iff]
    intro e' he'
    simp only [applySelectorBlur, hcol] at he'
    obtain ⟨e1, he1, rfl⟩ := List.mem_map.mp he'
    obtain ⟨e0, he0, rfl⟩ := List.mem_map.mp he1
    have hcn : ∀ x : Nat, ([] : List Nat).contains x = false := fun _ => rfl
    cases hb : e0.hideyBlur with
    | true => simp [hcn, hb, removeBlurFromElement_hideyBlur]
    | false => simp [hcn, hb]
  · intro hm he
    simp [loadStateRules, hm, he]
  · intro hse
    simp [getStateRules, hse]
  · intro hup hse
    have h1 : r.urlPattern.isEmpty = false := by
      cases hu : r.urlPattern with
      | nil => exact absurd hu hup
      | cons a l => rfl
    have h2 : 0 < r.selectors.length := List.length_pos.mpr hse
    simp [getStateRules, h1, h2]

/-- C8 (witness): the amended statement at the rule whose only selector is
the empty string, over a document with one stale marked element. -/
theorem c8_empty_rule_is_noop_witness :
    ((applySelectorBlur ⟨8, false⟩ [c8BlankRule] c8Doc).1.elems.filter (·.hideyBlur)) = []
    ∧ getStateRules [c8BlankRule] = [c8BlankRule] :=
  ⟨(c8_empty_rule_is_noop ⟨8, false⟩ c8BlankRule c8Doc "https://a.com/x".toList
      (by decide) (by decide)).1,
   (c8_empty_rule_is_noop ⟨8, false⟩ c8BlankRule c8Doc "https://a.com/x".toList
      (by decide) (by decide)).2.2.2 (by decide) (by decide)⟩

/-- C6: after a region pass, every current region index has an overlay
carrying it as `data-region-id`, the region ids of the resulting overlays
are pairwise distinct (so each index has exactly one overlay), no overlay
with a stale id survives, and an index that already had an overlay keeps
the same DOM node (same node identity) rather than getting a recreated
one. -/
theorem c6_region_overlay_reconciliation (cfg : EngineCfg) (env : GeomEnv)
    (regions : List Region) (fresh : Nat) (ovs : List Overlay)
    (hex : (ovs.map (·.nodeId)).Nodup) :
    (∀ j, j < regions.length →
       ∃ v ∈ applyRegionBlur cfg env regions fresh ovs, v.regionId = j)
    ∧ ((applyRegionBlur cfg env regions fresh ovs).map (·.regionId)).Nodup
    ∧ (∀ v ∈ applyRegionBlur cfg env regions fresh ovs, v.regionId < regions.length)
    ∧ (∀ j ov0, j < regions.length →
         ovs.find? (fun o => o.regionId == j) = some ov0 →
         ∃ v ∈ applyRegionBlur cfg env regions fresh ovs,
           v.regionId = j ∧ v.nodeId = ov0.nodeId) := by
  have hkeys : ((regionLoop cfg env ovs fresh 0 regions).1.map (·.1)).Nodup :=
    regionLoop_keys_nodup hex
  have hrids : ((regionLoop cfg env ovs fresh 0 regions).1.map (fun kv => kv.2.regionId)).Nodup :=
    regionLoop_upds_regionIds_nodup
  have hres : applyRegionBlur cfg env regions fresh ovs
      = ovs.filterMap (fun ov => (regionLoop cfg env ovs fresh 0 regions).1.lookup ov.nodeId)
        ++ (regionLoop cfg env ovs fresh 0 regions).2 := rfl
  have hkept : ∀ v ∈ ovs.filterMap
        (fun ov => (regionLoop cfg env ovs fresh 0 regions).1.lookup ov.nodeId),
      ∃ j ov2, j < regions.length
        ∧ ovs.find? (fun o => o.regionId == j) = some ov2 ∧ v.regionId = j := by
    intro v hv
    obtain ⟨ov, hov, hl⟩ := List.mem_filterMap.mp hv
    obtain ⟨j, ov2, hj1, hj2, hfind, h1, h2, h3⟩ := regionLoop_upds_mem (lookup_mem_entry hl)
    exact ⟨j, ov2, by omega, hfind, h2⟩
  have hcreated : ∀ c ∈ (regionLoop cfg env ovs fresh 0 regions).2,
      c.regionId < regions.length
        ∧ ovs.find? (fun o => o.regionId == c.regionId) = none := by
    intro c hc
    obtain ⟨h1, h2, h3⟩ := regionLoop_created_mem hc
    exact ⟨by omega, h3⟩
  have hcover : ∀ j ov0, j < regions.length →
      ovs.find? (fun o => o.regionId == j) = some ov0 →
      ∃ v ∈ applyRegionBlur cfg env regions fresh ovs,
        v.regionId = j ∧ v.nodeId = ov0.nodeId := by
    intro j ov0 hj hf
    obtain ⟨v, hv, h1, h2⟩ :=
      @regionLoop_covers_matched cfg env ovs regions fresh 0 j ov0 (Nat.zero_le j) (by omega) hf
    refine ⟨v, ?_, h1, h2⟩
    rw [hres]
    exact List.mem_append_left _
      (List.mem_filterMap.mpr ⟨ov0, (find_region_some hf).1, lookup_of_keys_nodup hkeys hv⟩)
  refine ⟨?_, ?_, ?_, hcover⟩
  · intro j hj
    cases hf : ovs.find? (fun o => o.regionId == j) with
    | some ov0 =>
        obtain ⟨v, hv, h1, _⟩ := hcover j ov0 hj hf
        exact ⟨v, hv, h1⟩
    | none =>
        obtain ⟨c, hc, h1⟩ :=
          @regionLoop_covers_unmatched cfg env ovs regions fresh 0 j (Nat.zero_le j) (by omega) hf
        refine ⟨c, ?_, h1⟩
        rw [hres]
        exact List.mem_append_right _ hc
  · rw [hres, List.map_append]
    refine List.Nodup.append (kept_regionIds_nodup hex hrids)
      regionLoop_created_regionIds_nodup ?_
    intro a ha hca
    obtain ⟨v, hv, hva⟩ := List.mem_map.mp ha
    obtain ⟨c, hc, hcb⟩ := List.mem_map.mp hca
    obtain ⟨j, ov2, hj, hfind, hvr⟩ := hkept v hv
    obtain ⟨_, hnone⟩ := hcreated c hc
    have hja : j = a := by rw [← hvr, hva]
    rw [hcb] at hnone
    rw [hja] at hfind
    rw [hfind] at hnone
    exact Option.noConfusion hnone
  · intro v hv
    rw [hres] at hv
    cases List.mem_append.mp hv with
    | inl h =>
        obtain ⟨j, ov2, hj, hfind, hvr⟩ := hkept v h
        rw [hvr]
        exact hj
    | inr h => exact (hcreated v h).1

/-- C6 (witness): the reconciliation at two identical regions over one
still-matched overlay (node 3, region id 0) and one stale overlay (node 4,
region id 5): node 3 is reused, a fresh overlay covers index 1, the stale
one is gone. -/
theorem c6_region_overlay_reconciliation_witness :
    ((c6Ovs.map (·.nodeId)).Nodup)
    ∧ ((∀ j, j < [c6Region, c6Region].length →
          ∃ v ∈ applyRegionBlur c6Cfg c6Env [c6Region, c6Region] 100 c6Ovs, v.regionId = j)
       ∧ ((applyRegionBlur c6Cfg c6Env [c6Region, c6Region] 100 c6Ovs).map (·.regionId)).Nodup
       ∧ (∀ v ∈ applyRegionBlur c6Cfg c6Env [c6Region, c6Region] 100 c6Ovs,
            v.regionId < [c6Region, c6Region].length)
       ∧ (∀ j ov0, j < [c6Region, c6Region].length →
            c6Ovs.find? (fun o => o.regionId == j) = some ov0 →
            ∃ v ∈ applyRegionBlur c6Cfg c6Env [c6Region, c6Region] 100 c6Ovs,
              v.regionId = j ∧ v.nodeId = ov0.nodeId)) :=
  ⟨by decide,
   c6_region_overlay_reconciliation c6Cfg c6Env [c6Region, c6Region] 100 c6Ovs (by decide)⟩

end Hidey
